import Mathlib

/-!
Shallow embedding of `lights.py` (repository 0x9900/lights): the cron-like
scheduling engine.  Python classes become Lean structures, mutable state is
passed explicitly, and the callable actions are identified by opaque `Nat`
ids (Python compares them by object identity in `Event.__eq__`).
-/

set_option autoImplicit false

namespace Lights

/-- A match field, as the scheduler stores it after `to_set` normalisation.
`AllMatch` (the `ALLMATCH` sentinel, line 115-123 of `lights.py`) is a
subclass of `set` whose `__contains__` always returns `True`; it carries no
actual elements.  Every other field is a plain finite `set` of integers. -/
inductive Field where
  | all : Field
  | fin : Finset Int → Field
  deriving DecidableEq

/-- Python membership `value in field`.  `AllMatch.__contains__` returns
`True` unconditionally; a plain `set` tests real membership. -/
def Field.mem : Field → Int → Bool
  | .all, _ => true
  | .fin s, v => decide (v ∈ s)

/-- Python equality `field == field`.  `AllMatch` overrides `__contains__`
but not `__eq__`, so it compares as the empty `set` it structurally is:
`ALLMATCH == s` holds exactly when `s` has no elements, and two plain sets
compare extensionally. -/
def Field.beq : Field → Field → Bool
  | .all, .all => true
  | .all, .fin s => decide (s = ∅)
  | .fin s, .all => decide (s = ∅)
  | .fin s, .fin t => decide (s = t)

/-- The argument actually passed for one field of `Event.__init__`: a bare
integer, some iterable collection of integers, or the `ALLMATCH` default. -/
inductive FieldSpec where
  | int : Int → FieldSpec
  | coll : List Int → FieldSpec
  | allmatch : FieldSpec
  deriving DecidableEq

/-- `to_set` (lines 30-35): a bare int becomes a one-element set, any other
collection is copied into a set, and a value that is already a `set`
instance (in particular `ALLMATCH`, since `AllMatch` subclasses `set`) is
returned unchanged. -/
def to_set : FieldSpec → Field
  | .int n => .fin {n}
  | .coll l => .fin l.toFinset
  | .allmatch => .all

/-- The minute-truncated wall-clock instant handed to `matchtime`:
`datetime(*datetime.now().timetuple()[:5])` keeps minute, hour, day, month
(and the derived weekday, Monday = 0). -/
structure DateTime where
  minute : Int
  hour : Int
  day : Int
  month : Int
  weekday : Int
  deriving DecidableEq

/-- An `Event` (lines 126-173) or `Task` (lines 175-189).  `action` is the
identity of the bound callable, `kwargs` the bound keyword arguments
(opaque key/value pairs).  `isTask` records the dynamic class, and
`has_run` is the `Task` flag (meaningless on plain events, always false
there). -/
structure Event where
  action : Nat
  mins : Field
  hours : Field
  days : Field
  months : Field
  daysofweek : Field
  kwargs : List (Nat × Int)
  isTask : Bool
  has_run : Bool
  deriving DecidableEq

/-- `Event.__init__`: each of the five pattern arguments goes through
`to_set`; the remaining keyword arguments are stored for the action. -/
def Event.make (action : Nat) (minute hour day month daysofweek : FieldSpec)
    (kwargs : List (Nat × Int)) : Event :=
  ⟨action, to_set minute, to_set hour, to_set day, to_set month,
    to_set daysofweek, kwargs, false, false⟩

/-- `Task.__init__`: identical construction, then `self.has_run = False`. -/
def Task.make (action : Nat) (minute hour day month daysofweek : FieldSpec)
    (kwargs : List (Nat × Int)) : Event :=
  ⟨action, to_set minute, to_set hour, to_set day, to_set month,
    to_set daysofweek, kwargs, true, false⟩

/-- `Event.matchtime` (lines 139-153): the conjunction of the five
membership tests. -/
def Event.matchtime (e : Event) (t : DateTime) : Bool :=
  e.mins.mem t.minute && e.hours.mem t.hour && e.days.mem t.day &&
    e.months.mem t.month && e.daysofweek.mem t.weekday

/-- `Event.__eq__` (lines 162-168): the action references and the five
stored sets are compared; `kwargs` is ignored, and so are the dynamic class
and the `has_run` flag (`Task` does not override `__eq__`). -/
def Event.eq (a b : Event) : Bool :=
  a.action == b.action && a.mins.beq b.mins && a.hours.beq b.hours &&
    a.days.beq b.days && a.months.beq b.months &&
    a.daysofweek.beq b.daysofweek

/-- Observable steps of one `check` call, in program order. -/
inductive Eff where
  | evalPattern : Eff
  | setFlag : Eff
  | invoke : Eff
  deriving DecidableEq

/-- One dispatch: `Task.check` (lines 181-189) when `isTask`, otherwise
`Event.check` (lines 155-160).  Returns the updated object and the trace of
observable steps: a fired `Task` evaluates its pattern, sets `has_run`,
then invokes the action; a `Task` that `has_run` returns immediately,
before `matchtime` is consulted. -/
def Event.checkRun (e : Event) (t : DateTime) : Event × List Eff :=
  if e.isTask then
    if e.has_run then (e, [])
    else if e.matchtime t then
      ({ e with has_run := true }, [.evalPattern, .setFlag, .invoke])
    else (e, [.evalPattern])
  else
    if e.matchtime t then (e, [.evalPattern, .invoke])
    else (e, [.evalPattern])

/-- Repeated dispatch of the same object at a sequence of tick times,
concatenating the observable traces. -/
def Event.checkSeq (e : Event) : List DateTime → Event × List Eff
  | [] => (e, [])
  | t :: ts =>
    let p := e.checkRun t
    let q := p.1.checkSeq ts
    (q.1, p.2 ++ q.2)

/-- `CronTab.append` (lines 220-225): `event not in self.events` tests
structural equality against every member; a duplicate is logged and
dropped, otherwise the event is appended at the end. -/
def crontab_append (evs : List Event) (e : Event) : List Event :=
  if evs.any (fun x => x.eq e) then evs else evs ++ [e]

/-- `CronTab.remove` (lines 227-233): `list.index` finds the first
structurally equal member and `del` erases exactly that position;
`ValueError` (no equal member) is caught and logged, leaving the list
unchanged. -/
def crontab_remove : List Event → Event → List Event
  | [], _ => []
  | x :: xs, e => if x.eq e then xs else x :: crontab_remove xs e

/-- The garbage predicate of `CronTab.run` (line 216): a member is swept
when it is a `Task` and its `has_run` flag is set. -/
def isGarbage (e : Event) : Bool := e.isTask && e.has_run

/-- One sweep pass of `CronTab.run` (lines 216-218): collect the garbage
list first, then `remove` each collected member in order. -/
def crontab_sweep (evs : List Event) : List Event :=
  (evs.filter isGarbage).foldl crontab_remove evs

/-- The registry invariant: no two members are structurally equal
(`append` enforces it, `remove` only deletes). -/
def NoDups (evs : List Event) : Prop :=
  evs.Pairwise (fun a b => a.eq b = false)

/-- The per-date payload `Sunset._sun` (lines 100-107): the parsed,
timezone-converted `sunrise` and `sunset` instants and the `day_length`
value passed through unmodified.  Instants are opaque here. -/
structure Snap where
  sunrise : Int
  sunset : Int
  day_length : Int
  deriving DecidableEq

/-- Lookup in the class-level `Sunset.__cache` dict, keyed by the local
calendar date (dates are opaque integers here). -/
def cacheLookup : List (Int × Snap) → Int → Option Snap
  | [], _ => none
  | (d, s) :: rest, today => if d == today then some s else cacheLookup rest today

/-- Result of one `Sunset` construction: the cache afterwards, the snapshot
obtained (or the propagated failure), and whether a network request was
attempted. -/
structure FetchOut where
  cache : List (Int × Snap)
  result : Except Unit Snap
  network : Bool

/-- `Sunset.__init__` (lines 82-108): if today's date is cached, reuse the
stored snapshot with no network request.  Otherwise perform the request —
modelled by the oracle, which may fail like `requests.get`/parsing — and
on success store the snapshot under today's date; on failure re-raise and
cache nothing. -/
def sunset_fetch (cache : List (Int × Snap)) (today : Int)
    (oracle : Int → Except Unit Snap) : FetchOut :=
  match cacheLookup cache today with
  | some s => ⟨cache, .ok s, false⟩
  | none =>
    match oracle today with
    | .ok s => ⟨(today, s) :: cache, .ok s, true⟩
    | .error e => ⟨cache, .error e, true⟩

/-- A whole process lifetime of `Sunset` constructions, one per listed
date; each trace entry records the date and whether that call fetched a
snapshot over the network (a network request that succeeded). -/
def sunset_trace (oracle : Int → Except Unit Snap) :
    List (Int × Snap) → List Int → List (Int × Bool)
  | _, [] => []
  | c, d :: ds =>
    let out := sunset_fetch c d oracle
    (d, out.network && out.result.isOk) :: sunset_trace oracle out.cache ds

/-- Whether a dispatch of this member at this instant reaches the action
call, per `checkRun`. -/
def dispatches (e : Event) (t : DateTime) : Bool :=
  (e.checkRun t).2.contains .invoke

/-- The greenlet phase of one tick.  In `CronTab._check` (lines 199-209)
the `for` loop only calls `gevent.spawn`, which enqueues `event.check`
without yielding, so every check is enqueued against the member list as it
stands at tick start (`snap`); the spawned checks then run and may mutate
the live registry (`live`) through their actions, modelled by `eff`, which
maps an invoked action id over the registry.  Returns the registry after
all greenlets ran and the ids of the actions invoked, in spawn order. -/
def runGreenlets (eff : Nat → List Event → List Event) (t : DateTime) :
    List Event → List Event → List Event × List Nat
  | [], live => (live, [])
  | e :: rest, live =>
    if dispatches e t then
      let p := runGreenlets eff t rest (eff e.action live)
      (p.1, e.action :: p.2)
    else
      runGreenlets eff t rest live

/-- One full tick over registry `evs`: spawn a check for every current
member, then let the greenlets run. -/
def runTick (eff : Nat → List Event → List Event) (t : DateTime)
    (evs : List Event) : List Event × List Nat :=
  runGreenlets eff t evs evs

/-! Basic properties of the structural equalities. -/

theorem Field.beq_refl (f : Field) : f.beq f = true := by
  cases f <;> simp [Field.beq]

theorem Field.beq_symm {f g : Field} (h : f.beq g = true) : g.beq f = true := by
  cases f <;> cases g <;> simp_all [Field.beq]

theorem Field.beq_trans {f g h : Field} (h1 : f.beq g = true)
    (h2 : g.beq h = true) : f.beq h = true := by
  cases f <;> cases g <;> cases h <;> simp_all [Field.beq]

theorem Event.eq_iff {a b : Event} :
    a.eq b = true ↔ (a.action = b.action ∧ a.mins.beq b.mins = true ∧
      a.hours.beq b.hours = true ∧ a.days.beq b.days = true ∧
      a.months.beq b.months = true ∧ a.daysofweek.beq b.daysofweek = true) := by
  simp [Event.eq, Bool.and_eq_true, and_assoc]

theorem Event.eq_refl (e : Event) : e.eq e = true := by
  simp [Event.eq_iff, Field.beq_refl]

theorem Event.eq_symm {a b : Event} (h : a.eq b = true) : b.eq a = true := by
  rw [Event.eq_iff] at h ⊢
  exact ⟨h.1.symm, Field.beq_symm h.2.1, Field.beq_symm h.2.2.1,
    Field.beq_symm h.2.2.2.1, Field.beq_symm h.2.2.2.2.1,
    Field.beq_symm h.2.2.2.2.2⟩

theorem Event.eq_trans {a b c : Event} (h1 : a.eq b = true)
    (h2 : b.eq c = true) : a.eq c = true := by
  rw [Event.eq_iff] at h1 h2 ⊢
  exact ⟨h1.1.trans h2.1, Field.beq_trans h1.2.1 h2.2.1,
    Field.beq_trans h1.2.2.1 h2.2.2.1, Field.beq_trans h1.2.2.2.1 h2.2.2.2.1,
    Field.beq_trans h1.2.2.2.2.1 h2.2.2.2.2.1,
    Field.beq_trans h1.2.2.2.2.2 h2.2.2.2.2.2⟩

/-- C4: the wildcard MatchField accepts every integer; a MatchField built
from a collection `S` accepts `v` iff `v` is an element of `S`; and a
MatchField built from a bare integer `n` is the same field as one built
from the singleton collection holding `n`. -/
theorem C4_matchfield_semantics :
    (∀ v : Int, Field.mem .all v = true) ∧
    (∀ (l : List Int) (v : Int), (to_set (.coll l)).mem v = true ↔ v ∈ l) ∧
    (∀ n : Int, to_set (.int n) = to_set (.coll [n])) := by
  refine ⟨fun _ => rfl, fun l v => ?_, fun n => ?_⟩
  · simp [to_set, Field.mem]
  · simp [to_set]

/-- C3: `matchtime` holds exactly when the minute, hour, day-of-month,
month and weekday all pass their fields; the action scheduled at
minute 35, hour 22 with every other field wildcard matches an instant iff
its minute is 35 and its hour is 22 — so at 22:35 on every day, month and
weekday, and at neither 22:34 nor 22:36. -/
theorem C3_matchtime_conjunction :
    (∀ (e : Event) (t : DateTime),
      e.matchtime t = true ↔
        (e.mins.mem t.minute = true ∧ e.hours.mem t.hour = true ∧
          e.days.mem t.day = true ∧ e.months.mem t.month = true ∧
          e.daysofweek.mem t.weekday = true)) ∧
    (∀ t : DateTime,
      (Event.make 0 (.int 35) (.int 22) .allmatch .allmatch .allmatch
          []).matchtime t =
        (decide (t.minute = 35) && decide (t.hour = 22))) ∧
    (∀ d mo w : Int,
      (Event.make 0 (.int 35) (.int 22) .allmatch .allmatch .allmatch
          []).matchtime ⟨35, 22, d, mo, w⟩ = true ∧
      (Event.make 0 (.int 35) (.int 22) .allmatch .allmatch .allmatch
          []).matchtime ⟨34, 22, d, mo, w⟩ = false ∧
      (Event.make 0 (.int 35) (.int 22) .allmatch .allmatch .allmatch
          []).matchtime ⟨36, 22, d, mo, w⟩ = false) := by
  refine ⟨fun e t => ?_, fun t => ?_, fun d mo w => ?_⟩
  · simp [Event.matchtime, Bool.and_eq_true, and_assoc]
  · simp [Event.make, Event.matchtime, to_set, Field.mem]
  · refine ⟨?_, ?_, ?_⟩ <;>
      simp [Event.make, Event.matchtime, to_set, Field.mem]

/-- C5: two actions with the same callback and pairwise-equal five fields
are structurally equal, whatever their bound keyword arguments (or any
other state) are: `Event.__eq__` never reads `kwargs`. -/
theorem C5_eq_ignores_kwargs (a b : Event)
    (hact : a.action = b.action)
    (h1 : a.mins.beq b.mins = true) (h2 : a.hours.beq b.hours = true)
    (h3 : a.days.beq b.days = true) (h4 : a.months.beq b.months = true)
    (h5 : a.daysofweek.beq b.daysofweek = true) :
    a.eq b = true := by
  rw [Event.eq_iff]
  exact ⟨hact, h1, h2, h3, h4, h5⟩

/-- Witness for C5: same callback, same patterns, different bound keyword
arguments — the two actions still compare equal. -/
theorem C5_eq_ignores_kwargs_witness :
    (Event.make 3 (.int 0) (.int 0) .allmatch .allmatch .allmatch
        [(1, 5)]).kwargs ≠
      (Event.make 3 (.int 0) (.int 0) .allmatch .allmatch .allmatch
        [(1, 9)]).kwargs ∧
    (Event.make 3 (.int 0) (.int 0) .allmatch .allmatch .allmatch
        [(1, 5)]).eq
      (Event.make 3 (.int 0) (.int 0) .allmatch .allmatch .allmatch
        [(1, 9)]) = true :=
  ⟨by decide,
    C5_eq_ignores_kwargs _ _ rfl (Field.beq_refl _) (Field.beq_refl _)
      (Field.beq_refl _) (Field.beq_refl _) (Field.beq_refl _)⟩

/-- Counterexample to C6 as stated: the wildcard stores no elements, so
Python set equality makes it equal to a field built from an empty
collection, and two actions with the same callback, one with a wildcard
minute field and the other with a minute field built from the empty
collection, compare structurally equal. -/
theorem C6_wildcard_counterexample :
    Field.beq .all (to_set (.coll [])) = true ∧
    (Event.make 7 .allmatch .allmatch .allmatch .allmatch .allmatch
        []).eq
      (Event.make 7 (.coll []) .allmatch .allmatch .allmatch .allmatch
        []) = true := by
  constructor
  · simp [to_set, Field.beq]
  · rw [Event.eq_iff]
    refine ⟨rfl, ?_, Field.beq_refl _, Field.beq_refl _, Field.beq_refl _,
      Field.beq_refl _⟩
    simp [Event.make, to_set, Field.beq]

/-- C6 amended: a wildcard field equals another wildcard field and also a
field built from an empty collection; it never equals a field built from a
nonempty collection, and two actions with the same callback, one with a
wildcard field where the other has that field built from a nonempty
collection, are not structurally equal. -/
theorem C6_wildcard_amended (l : List Int) (hl : l ≠ []) :
    Field.beq .all .all = true ∧
    Field.beq .all (to_set (.coll [])) = true ∧
    Field.beq .all (to_set (.coll l)) = false ∧
    (∀ a b : Event, a.mins = .all → b.mins = to_set (.coll l) →
      a.eq b = false) := by
  have hne : Field.beq .all (to_set (.coll l)) = false := by
    simp [to_set, Field.beq, List.toFinset_eq_empty_iff, hl]
  refine ⟨rfl, by simp [to_set, Field.beq], hne, fun a b ha hb => ?_⟩
  simp [Event.eq, ha, hb, hne]

/-- Witness for C6's amendment at the singleton collection `[0]`. -/
theorem C6_wildcard_amended_witness :
    Field.beq .all (to_set (.coll [0])) = false ∧
    (Event.make 7 .allmatch .allmatch .allmatch .allmatch .allmatch
        []).eq
      (Event.make 7 (.coll [0]) .allmatch .allmatch .allmatch .allmatch
        []) = false :=
  ⟨(C6_wildcard_amended [0] (by decide)).2.2.1,
    (C6_wildcard_amended [0] (by decide)).2.2.2 _ _ rfl rfl⟩

/-- C10: structural equality does not distinguish a recurring `Event` from
a one-shot `Task`: with the same callback and pairwise-equal fields the two
compare equal both ways, appending the task to a registry that already
holds the event is a deduplicated no-op, and removing the task from a
registry headed by the event deletes the event. -/
theorem C10_event_task_interchangeable (ev tk : Event)
    (_hev : ev.isTask = false) (_htk : tk.isTask = true)
    (hact : ev.action = tk.action)
    (h1 : ev.mins.beq tk.mins = true) (h2 : ev.hours.beq tk.hours = true)
    (h3 : ev.days.beq tk.days = true) (h4 : ev.months.beq tk.months = true)
    (h5 : ev.daysofweek.beq tk.daysofweek = true) :
    ev.eq tk = true ∧ tk.eq ev = true ∧
    (∀ evs : List Event, ev ∈ evs → crontab_append evs tk = evs) ∧
    (∀ rest : List Event, crontab_remove (ev :: rest) tk = rest) := by
  have heq : ev.eq tk = true := Event.eq_iff.mpr ⟨hact, h1, h2, h3, h4, h5⟩
  refine ⟨heq, Event.eq_symm heq, fun evs hmem => ?_, fun rest => ?_⟩
  · unfold crontab_append
    rw [if_pos (List.any_eq_true.mpr ⟨ev, hmem, heq⟩)]
  · unfold crontab_remove
    rw [if_pos heq]

/-- Witness for C10: the 22:35 lights-off `Event` versus a `Task` with the
same callback and the same two patterns. -/
theorem C10_event_task_interchangeable_witness :
    (Event.make 1 (.int 35) (.int 22) .allmatch .allmatch .allmatch
        []).eq
      (Task.make 1 (.int 35) (.int 22) .allmatch .allmatch .allmatch
        []) = true ∧
    crontab_append
      [Event.make 1 (.int 35) (.int 22) .allmatch .allmatch .allmatch []]
      (Task.make 1 (.int 35) (.int 22) .allmatch .allmatch .allmatch []) =
      [Event.make 1 (.int 35) (.int 22) .allmatch .allmatch .allmatch
        []] := by
  have h := C10_event_task_interchangeable
    (Event.make 1 (.int 35) (.int 22) .allmatch .allmatch .allmatch [])
    (Task.make 1 (.int 35) (.int 22) .allmatch .allmatch .allmatch [])
    rfl rfl rfl (Field.beq_refl _) (Field.beq_refl _) (Field.beq_refl _)
    (Field.beq_refl _) (Field.beq_refl _)
  exact ⟨h.1, h.2.2.1 _ (List.mem_singleton.mpr rfl)⟩

/-! One-shot dispatch. -/

/-- A fired `Task` short-circuits every single dispatch. -/
theorem Event.checkRun_of_fired {e : Event} (hT : e.isTask = true)
    (hR : e.has_run = true) (t : DateTime) : e.checkRun t = (e, []) := by
  simp [Event.checkRun, hT, hR]

/-- A fired `Task` short-circuits every sequence of dispatches. -/
theorem Event.checkSeq_of_fired {e : Event} (hT : e.isTask = true)
    (hR : e.has_run = true) (ts : List DateTime) : e.checkSeq ts = (e, []) := by
  induction ts with
  | nil => rfl
  | cons t ts ih => simp [Event.checkSeq, Event.checkRun_of_fired hT hR, ih]

/-- C1: a freshly built `Task` has `has_run = false`; an unfired `Task`
dispatched at any sequence of tick times invokes its action at most once;
whenever a single dispatch invokes the action, the trace shows the flag
set before the invocation and the resulting state has `has_run = true`;
and once `has_run` holds it stays, with every later dispatch returning
immediately — no pattern evaluation, no invocation, no state change. -/
theorem C1_oneshot_at_most_once :
    (∀ a m h d mo dw kw, (Task.make a m h d mo dw kw).has_run = false) ∧
    (∀ e : Event, e.isTask = true → e.has_run = false →
      ∀ ts : List DateTime, (e.checkSeq ts).2.count .invoke ≤ 1) ∧
    (∀ (e : Event) (t : DateTime), e.isTask = true →
      (e.checkRun t).2.contains .invoke = true →
      (e.checkRun t).2 = [.evalPattern, .setFlag, .invoke] ∧
      (e.checkRun t).1.has_run = true) ∧
    (∀ (e : Event) (ts : List DateTime), e.isTask = true →
      e.has_run = true → e.checkSeq ts = (e, [])) := by
  refine ⟨fun _ _ _ _ _ _ _ => rfl, fun e hT hR ts => ?_,
    fun e t hT hinv => ?_, fun e ts hT hR => Event.checkSeq_of_fired hT hR ts⟩
  · induction ts generalizing e with
    | nil => simp [Event.checkSeq]
    | cons t ts ih =>
      by_cases hm : e.matchtime t = true
      · have hrun : e.checkRun t =
            ({ e with has_run := true }, [.evalPattern, .setFlag, .invoke]) := by
          simp [Event.checkRun, hT, hR, hm]
        simp [Event.checkSeq, hrun,
          Event.checkSeq_of_fired (e := { e with has_run := true }) hT rfl ts,
          List.count_cons]
      · have hrun : e.checkRun t = (e, [.evalPattern]) := by
          simp [Event.checkRun, hT, hR, hm]
        simpa [Event.checkSeq, hrun, List.count_cons] using ih e hT hR
  · rw [Event.checkRun] at hinv ⊢
    rw [hT] at hinv ⊢
    by_cases hR : e.has_run = true
    · simp [hR] at hinv
    · rw [Bool.not_eq_true] at hR
      by_cases hm : e.matchtime t = true
      · simp [hR, hm]
      · simp [hR, hm] at hinv

/-- Witness for C1: the solar-style `Task` with minute pattern 0 and hour
pattern 2, 8, 14, 20, dispatched at the matching ticks 02:00 and 08:00 of
the same day, invokes its action at most once. -/
theorem C1_oneshot_at_most_once_witness :
    ((Task.make 5 (.int 0) (.coll [2, 8, 14, 20]) .allmatch .allmatch
        .allmatch []).checkSeq
      [⟨0, 2, 1, 1, 0⟩, ⟨0, 8, 1, 1, 0⟩]).2.count .invoke ≤ 1 :=
  C1_oneshot_at_most_once.2.1 _ rfl rfl _

/-! Registry membership and deduplication. -/

/-- Unfolding of the invariant on a nonempty registry. -/
theorem NoDups_cons {a : Event} {rest : List Event} :
    NoDups (a :: rest) ↔ (∀ x ∈ rest, a.eq x = false) ∧ NoDups rest :=
  List.pairwise_cons

/-- If `a` equals `e` but not `x`, then `x` does not equal `e`. -/
theorem Event.eq_false_of_eq {a x e : Event} (hae : a.eq e = true)
    (hax : a.eq x = false) : x.eq e = false := by
  by_contra hx
  rw [Bool.not_eq_false] at hx
  rw [Event.eq_trans hae (Event.eq_symm hx)] at hax
  exact Bool.true_eq_false.mp hax

/-- Removing an event no member equals leaves the registry unchanged. -/
theorem crontab_remove_of_absent {evs : List Event} {e : Event}
    (h : ∀ x ∈ evs, x.eq e = false) : crontab_remove evs e = evs := by
  induction evs with
  | nil => rfl
  | cons a rest ih =>
    rw [crontab_remove, if_neg (by rw [h a (List.mem_cons_self a rest)]; simp),
      ih fun x hx => h x (List.mem_cons_of_mem a hx)]

/-- A duplicate-free registry holds at most one member equal to `e`. -/
theorem countP_eq_le_one {evs : List Event} (hnd : NoDups evs) (e : Event) :
    evs.countP (fun x => x.eq e) ≤ 1 := by
  induction evs with
  | nil => simp
  | cons a rest ih =>
    rw [NoDups_cons] at hnd
    rw [List.countP_cons]
    by_cases hae : a.eq e = true
    · have hz : rest.countP (fun x => x.eq e) = 0 := by
        rw [List.countP_eq_zero]
        intro x hx
        simp [Event.eq_false_of_eq hae (hnd.1 x hx)]
      simp [hz, hae]
    · rw [Bool.not_eq_true] at hae
      simp only [hae]
      simpa using ih hnd.2

/-- On a duplicate-free registry, `remove` behaves like filtering out the
(unique) structurally equal member. -/
theorem crontab_remove_eq_filter {evs : List Event} (hnd : NoDups evs)
    (e : Event) : crontab_remove evs e = evs.filter (fun x => !x.eq e) := by
  induction evs with
  | nil => rfl
  | cons a rest ih =>
    rw [NoDups_cons] at hnd
    by_cases hae : a.eq e = true
    · have hrest : rest.filter (fun x => !x.eq e) = rest := by
        rw [List.filter_eq_self]
        intro x hx
        simp [Event.eq_false_of_eq hae (hnd.1 x hx)]
      rw [crontab_remove, if_pos hae, List.filter_cons_of_neg (by simp [hae]),
        hrest]
    · rw [Bool.not_eq_true] at hae
      rw [crontab_remove, if_neg (by simp [hae]),
        List.filter_cons_of_pos (by simp [hae]), ih hnd.2]

/-- When some member equals `e`, `remove` deletes exactly one member. -/
theorem crontab_remove_length {evs : List Event} {e : Event}
    (h : ∃ x ∈ evs, x.eq e = true) :
    (crontab_remove evs e).length + 1 = evs.length := by
  induction evs with
  | nil => exact absurd h (by simp)
  | cons a rest ih =>
    by_cases hae : a.eq e = true
    · rw [crontab_remove, if_pos hae, List.length_cons]
    · rw [Bool.not_eq_true] at hae
      rw [crontab_remove, if_neg (by simp [hae]), List.length_cons,
        List.length_cons, ih]
      rcases h with ⟨x, hx, hxe⟩
      rcases List.mem_cons.mp hx with rfl | hx'
      · rw [hxe] at hae; exact absurd hae (by simp)
      · exact ⟨x, hx', hxe⟩

/-- C2: on a duplicate-free registry, appending a structural duplicate is a
no-op; registering two structurally-equal actions leaves exactly one
matching member; `remove` deletes exactly the unique equal member (one
member, not zero, not all, the rest kept in order); removing an absent
action is a no-op; and both operations preserve the no-duplicates
invariant. -/
theorem C2_registry_dedup (evs : List Event) (hnd : NoDups evs) :
    (∀ e : Event, evs.any (fun x => x.eq e) = true →
      crontab_append evs e = evs) ∧
    (∀ e e' : Event, e.eq e' = true →
      (crontab_append (crontab_append evs e) e').countP
        (fun x => x.eq e) = 1) ∧
    (∀ e : Event, crontab_remove evs e = evs.filter (fun x => !x.eq e)) ∧
    (∀ e : Event, evs.any (fun x => x.eq e) = true →
      (crontab_remove evs e).length + 1 = evs.length) ∧
    (∀ e : Event, evs.any (fun x => x.eq e) = false →
      crontab_remove evs e = evs) ∧
    (∀ e : Event,
      NoDups (crontab_append evs e) ∧ NoDups (crontab_remove evs e)) := by
  have habsent : ∀ {e : Event}, evs.any (fun x => x.eq e) = false →
      ∀ x ∈ evs, x.eq e = false := by
    intro e h x hx
    have := List.any_eq_false.mp h x hx
    simpa using this
  refine ⟨fun e h => by rw [crontab_append, if_pos h],
    fun e e' hee => ?_, fun e => crontab_remove_eq_filter hnd e,
    fun e h => ?_, fun e h => crontab_remove_of_absent (habsent h),
    fun e => ⟨?_, ?_⟩⟩
  · by_cases h1 : evs.any (fun x => x.eq e) = true
    · obtain ⟨x, hx, hxe⟩ := List.any_eq_true.mp h1
      have hxe' : x.eq e = true := by simpa using hxe
      have hxe'' : x.eq e' = true := Event.eq_trans hxe' hee
      have h2 : evs.any (fun x => x.eq e') = true :=
        List.any_eq_true.mpr ⟨x, hx, by simpa using hxe''⟩
      have hinner : crontab_append evs e = evs := by
        rw [crontab_append, if_pos h1]
      rw [hinner, crontab_append, if_pos h2]
      refine Nat.le_antisymm (countP_eq_le_one hnd e) ?_
      exact List.countP_pos_iff.mpr ⟨x, hx, by simpa using hxe'⟩
    · rw [Bool.not_eq_true] at h1
      have hinner : crontab_append evs e = evs ++ [e] := by
        rw [crontab_append, if_neg (by simp [h1])]
      have h2 : (evs ++ [e]).any (fun x => x.eq e') = true :=
        List.any_eq_true.mpr ⟨e, by simp, by simpa using hee⟩
      rw [hinner, crontab_append, if_pos h2, List.countP_append]
      have hz : evs.countP (fun x => x.eq e) = 0 := by
        rw [List.countP_eq_zero]
        intro x hx
        simp [habsent h1 x hx]
      simp [hz, Event.eq_refl]
  · refine crontab_remove_length ?_
    obtain ⟨x, hx, hxe⟩ := List.any_eq_true.mp h
    exact ⟨x, hx, by simpa using hxe⟩
  · by_cases h1 : evs.any (fun x => x.eq e) = true
    · rwa [crontab_append, if_pos h1]
    · rw [Bool.not_eq_true] at h1
      rw [crontab_append, if_neg (by simp [h1])]
      rw [NoDups, List.pairwise_append]
      refine ⟨hnd, List.pairwise_singleton _ _, fun x hx b hb => ?_⟩
      rw [List.mem_singleton] at hb
      subst hb
      exact habsent h1 x hx
  · rw [crontab_remove_eq_filter hnd e]
    exact hnd.filter _

/-- Witness for C2 on the registry holding the midnight-off event:
registering the 22:35 lights-off action twice leaves exactly one matching
member. -/
theorem C2_registry_dedup_witness :
    (crontab_append
      (crontab_append
        [Event.make 1 (.int 0) (.int 0) .allmatch .allmatch .allmatch []]
        (Event.make 1 (.int 35) (.int 22) .allmatch .allmatch .allmatch []))
      (Event.make 1 (.int 35) (.int 22) .allmatch .allmatch .allmatch
        [])).countP
      (fun x => x.eq (Event.make 1 (.int 35) (.int 22) .allmatch .allmatch
        .allmatch [])) = 1 :=
  (C2_registry_dedup
    [Event.make 1 (.int 0) (.int 0) .allmatch .allmatch .allmatch []]
    (List.pairwise_singleton _ _)).2.1 _ _ (Event.eq_refl _)

/-! The sweep pass of `CronTab.run`. -/

/-- Folding `remove` over targets none of which equals the head leaves the
head in place. -/
theorem foldl_remove_cons {a : Event} {g : List Event}
    (h : ∀ x ∈ g, a.eq x = false) (live : List Event) :
    g.foldl crontab_remove (a :: live) = a :: g.foldl crontab_remove live := by
  induction g generalizing live with
  | nil => rfl
  | cons x g ih =>
    rw [List.foldl_cons, List.foldl_cons, crontab_remove,
      if_neg (by simp [h x (List.mem_cons_self x g)])]
    exact ih (fun y hy => h y (List.mem_cons_of_mem x hy)) _

/-- On a duplicate-free registry, the sweep of `CronTab.run` keeps exactly
the members that are not fired tasks, in order. -/
theorem crontab_sweep_eq_filter {evs : List Event} (hnd : NoDups evs) :
    crontab_sweep evs = evs.filter (fun e => !isGarbage e) := by
  induction evs with
  | nil => rfl
  | cons a rest ih =>
    rw [NoDups_cons] at hnd
    rw [crontab_sweep] at ih ⊢
    by_cases hg : isGarbage a = true
    · rw [List.filter_cons_of_pos hg, List.foldl_cons, crontab_remove,
        if_pos (Event.eq_refl a), List.filter_cons_of_neg (by simp [hg]),
        ih hnd.2]
    · rw [Bool.not_eq_true] at hg
      rw [List.filter_cons_of_neg (by simp [hg]),
        foldl_remove_cons
          (fun x hx => hnd.1 x (List.mem_of_mem_filter hx)) rest,
        List.filter_cons_of_pos (by simp [hg]), ih hnd.2]

/-- C7: on a duplicate-free registry, one sweep pass deletes exactly the
fired one-shot members: the result is the member list with precisely the
`Task`s having `has_run = true` removed; every recurring event and every
unfired task survives, in the same relative order, and every fired task is
gone. -/
theorem C7_sweep_removes_only_fired (evs : List Event) (hnd : NoDups evs) :
    crontab_sweep evs = evs.filter (fun e => !isGarbage e) ∧
    (∀ e ∈ evs, e.isTask = true → e.has_run = true →
      e ∉ crontab_sweep evs) ∧
    (∀ e ∈ evs, isGarbage e = false → e ∈ crontab_sweep evs) := by
  refine ⟨crontab_sweep_eq_filter hnd, fun e he hT hR hmem => ?_,
    fun e he hg => ?_⟩
  · rw [crontab_sweep_eq_filter hnd] at hmem
    have := (List.mem_filter.mp hmem).2
    simp [isGarbage, hT, hR] at this
  · rw [crontab_sweep_eq_filter hnd]
    exact List.mem_filter.mpr ⟨he, by simp [hg]⟩

/-- Witness for C7: a registry holding a recurring event, a fired task and
an unfired task; the sweep deletes exactly the fired task. -/
theorem C7_sweep_removes_only_fired_witness :
    crontab_sweep
      [⟨1, .all, .all, .all, .all, .all, [], false, false⟩,
        ⟨2, .all, .all, .all, .all, .all, [], true, true⟩,
        ⟨3, .all, .all, .all, .all, .all, [], true, false⟩] =
      [⟨1, .all, .all, .all, .all, .all, [], false, false⟩,
        ⟨3, .all, .all, .all, .all, .all, [], true, false⟩] := by
  rw [(C7_sweep_removes_only_fired
    [⟨1, .all, .all, .all, .all, .all, [], false, false⟩,
      ⟨2, .all, .all, .all, .all, .all, [], true, true⟩,
      ⟨3, .all, .all, .all, .all, .all, [], true, false⟩]
    (by unfold NoDups; decide)).1]
  rfl

/-! The per-date cache of `Sunset`. -/

/-- After a construction whose result is a snapshot, the cache holds that
snapshot under the requested date. -/
theorem cacheLookup_fetch_self {cache : List (Int × Snap)} {d : Int}
    {oracle : Int → Except Unit Snap} {s : Snap}
    (h : (sunset_fetch cache d oracle).result = .ok s) :
    cacheLookup (sunset_fetch cache d oracle).cache d = some s := by
  revert h
  rw [sunset_fetch]
  cases hc : cacheLookup cache d with
  | some s0 =>
    intro h
    simp only [Except.ok.injEq] at h
    rw [← h]
    exact hc
  | none =>
    cases ho : oracle d with
    | ok s1 =>
      intro h
      simp only [Except.ok.injEq] at h
      simp [cacheLookup, h]
    | error e =>
      intro h
      simp at h

/-- A construction for one date never changes what is cached under
another. -/
theorem cacheLookup_fetch_other {cache : List (Int × Snap)} {d d' : Int}
    {oracle : Int → Except Unit Snap} (hne : d ≠ d') :
    cacheLookup (sunset_fetch cache d oracle).cache d' =
      cacheLookup cache d' := by
  rw [sunset_fetch]
  cases hc : cacheLookup cache d with
  | some s0 => rfl
  | none =>
    cases ho : oracle d with
    | ok s1 => simp [cacheLookup, hne]
    | error e => rfl

/-- Once a date is cached, no later construction in the process lifetime
performs a successful network fetch for that date. -/
theorem sunset_trace_none_of_cached (oracle : Int → Except Unit Snap)
    {c : List (Int × Snap)} {d : Int} {s : Snap}
    (h : cacheLookup c d = some s) (ds : List Int) :
    (sunset_trace oracle c ds).countP (fun p => p.1 == d && p.2) = 0 := by
  induction ds generalizing c s with
  | nil => rfl
  | cons d' ds ih =>
    rw [sunset_trace, List.countP_cons]
    by_cases hdd : d' = d
    · subst hdd
      have hout : sunset_fetch c d' oracle = ⟨c, .ok s, false⟩ := by
        rw [sunset_fetch, h]
      rw [hout]
      simpa using ih h
    · have hpres : cacheLookup (sunset_fetch c d' oracle).cache d =
          some s := by
        rw [cacheLookup_fetch_other hdd]
        exact h
      have : (d' == d) = false := by simp [hdd]
      simpa [this] using ih hpres

/-- C8: a second construction on an already-fetched date performs no
network request and returns the identical cached snapshot; two distinct
uncached dates trigger two independent network fetches; and over any
sequence of constructions, at most one snapshot is ever fetched over the
network per distinct date. -/
theorem C8_sunset_cache (c : List (Int × Snap)) (d d1 d2 : Int)
    (oracle : Int → Except Unit Snap) :
    (∀ s : Snap, (sunset_fetch c d oracle).result = .ok s →
      sunset_fetch (sunset_fetch c d oracle).cache d oracle =
        ⟨(sunset_fetch c d oracle).cache, .ok s, false⟩) ∧
    (cacheLookup c d1 = none → cacheLookup c d2 = none → d1 ≠ d2 →
      (sunset_fetch c d1 oracle).network = true ∧
      (sunset_fetch (sunset_fetch c d1 oracle).cache d2 oracle).network =
        true) ∧
    (∀ ds : List Int,
      (sunset_trace oracle c ds).countP (fun p => p.1 == d && p.2) ≤ 1) := by
  refine ⟨fun s h => ?_, fun h1 h2 hne => ⟨?_, ?_⟩, fun ds => ?_⟩
  · rw [sunset_fetch, cacheLookup_fetch_self h]
  · rw [sunset_fetch, h1]
    cases oracle d1 <;> rfl
  · rw [sunset_fetch, cacheLookup_fetch_other hne, h2]
    cases oracle d2 <;> rfl
  · induction ds generalizing c with
    | nil => exact Nat.zero_le 1
    | cons d' ds ih =>
      rw [sunset_trace, List.countP_cons]
      by_cases hp : ((d' == d) &&
          ((sunset_fetch c d' oracle).network &&
            (sunset_fetch c d' oracle).result.isOk)) = true
      · have hd : d' = d := by
          have := (Bool.and_eq_true _ _).mp hp
          simpa using this.1
        subst hd
        have hok : (sunset_fetch c d' oracle).result.isOk = true := by
          have := (Bool.and_eq_true _ _).mp hp
          exact ((Bool.and_eq_true _ _).mp this.2).2
        obtain ⟨s, hs⟩ : ∃ s, (sunset_fetch c d' oracle).result = .ok s := by
          cases hres : (sunset_fetch c d' oracle).result with
          | ok s => exact ⟨s, rfl⟩
          | error e => rw [hres] at hok; cases hok
        have hz := sunset_trace_none_of_cached oracle
          (cacheLookup_fetch_self hs) ds
        simp only [hz, Nat.zero_add]
        split <;> simp
      · rw [Bool.not_eq_true] at hp
        simpa [hp] using ih (sunset_fetch c d' oracle).cache

/-- Witness for C8: starting from an empty cache with an always-succeeding
service, a second construction on date 0 returns the cached snapshot with
no network request, the two distinct dates 0 and 1 each trigger a network
fetch, and a lifetime fetching dates 0, 0, 1 performs at most one
successful network fetch for date 0. -/
theorem C8_sunset_cache_witness :
    (sunset_fetch
        (sunset_fetch [] 0 (fun _ => .ok ⟨6, 19, 750⟩)).cache 0
        (fun _ => .ok ⟨6, 19, 750⟩) =
      ⟨(sunset_fetch [] 0 (fun _ => .ok ⟨6, 19, 750⟩)).cache,
        .ok ⟨6, 19, 750⟩, false⟩) ∧
    (sunset_fetch [] 0 (fun _ => .ok ⟨6, 19, 750⟩)).network = true ∧
    (sunset_fetch (sunset_fetch [] 0 (fun _ => .ok ⟨6, 19, 750⟩)).cache 1
      (fun _ => .ok ⟨6, 19, 750⟩)).network = true ∧
    (sunset_trace (fun _ => .ok ⟨6, 19, 750⟩) [] [0, 0, 1]).countP
      (fun p => p.1 == 0 && p.2) ≤ 1 :=
  ⟨(C8_sunset_cache [] 0 0 1 (fun _ => .ok ⟨6, 19, 750⟩)).1 ⟨6, 19, 750⟩
      rfl,
    ((C8_sunset_cache [] 0 0 1 (fun _ => .ok ⟨6, 19, 750⟩)).2.1 rfl rfl
      (by decide)).1,
    ((C8_sunset_cache [] 0 0 1 (fun _ => .ok ⟨6, 19, 750⟩)).2.1 rfl rfl
      (by decide)).2,
    (C8_sunset_cache [] 0 0 1 (fun _ => .ok ⟨6, 19, 750⟩)).2.2 [0, 0, 1]⟩

/-! The tick pass of `CronTab._check`. -/

/-- The actions a tick invokes are exactly those of the matching members of
the enqueued check list, regardless of how the greenlets mutate the live
registry. -/
theorem runGreenlets_fired (eff : Nat → List Event → List Event)
    (t : DateTime) :
    ∀ snap live : List Event,
      (runGreenlets eff t snap live).2 =
        (snap.filter (fun e => dispatches e t)).map Event.action := by
  intro snap
  induction snap with
  | nil => intro live; rfl
  | cons e rest ih =>
    intro live
    by_cases hd : dispatches e t = true
    · rw [runGreenlets, if_pos hd]
      simp only [List.filter_cons, hd, if_true, List.map_cons]
      simpa using ih (eff e.action live)
    · rw [Bool.not_eq_true] at hd
      rw [runGreenlets, if_neg (by simp [hd])]
      simp only [List.filter_cons, hd, Bool.false_eq_true, if_false]
      exact ih live

/-- C9: the dispatch pass of a tick is a function of the member list as it
stood when `_check` enqueued the checks: any two effect behaviours of the
dispatched actions invoke the same actions, namely those of the tick-start
members whose pattern matches; an action id carried by no tick-start
member is never invoked during that tick, however the registry is mutated
meanwhile; and a member present in the registry once the tick is over — in
particular one appended during the tick — is dispatched by the next tick's
pass when its pattern matches then. -/
theorem C9_tick_snapshot (t : DateTime) (evs : List Event)
    (eff1 eff2 : Nat → List Event → List Event) :
    (runTick eff1 t evs).2 = (runTick eff2 t evs).2 ∧
    (runTick eff1 t evs).2 =
      (evs.filter (fun e => dispatches e t)).map Event.action ∧
    (∀ a : Nat, (∀ e ∈ evs, e.action ≠ a) → a ∉ (runTick eff1 t evs).2) ∧
    (∀ e' : Event, e' ∈ (runTick eff1 t evs).1 → ∀ t' : DateTime,
      dispatches e' t' = true →
      e'.action ∈ (runTick eff2 t' ((runTick eff1 t evs).1)).2) := by
  refine ⟨?_, runGreenlets_fired eff1 t evs evs, fun a ha hmem => ?_,
    fun e' he' t' hd => ?_⟩
  · rw [runTick, runTick, runGreenlets_fired eff1 t evs evs,
      runGreenlets_fired eff2 t evs evs]
  · rw [runTick, runGreenlets_fired eff1 t evs evs] at hmem
    obtain ⟨e, he, hea⟩ := List.mem_map.mp hmem
    exact ha e (List.mem_of_mem_filter he) hea
  · rw [runTick, runGreenlets_fired eff2 t' _ _]
    exact List.mem_map.mpr ⟨e', List.mem_filter.mpr ⟨he', hd⟩, rfl⟩

/-- Witness for C9: a registry holding one always-matching event whose
action appends a one-shot 19:42 task during the tick; the appended task is
absent from that tick's dispatch pass and is dispatched by the next tick
at 19:42. -/
theorem C9_tick_snapshot_witness :
    9 ∉ (runTick
      (fun a live => if a == 4 then crontab_append live
        (Task.make 9 (.int 42) (.int 19) .allmatch .allmatch .allmatch [])
        else live)
      ⟨0, 12, 1, 1, 0⟩
      [Event.make 4 .allmatch .allmatch .allmatch .allmatch .allmatch
        []]).2 ∧
    9 ∈ (runTick (fun _ live => live) ⟨42, 19, 1, 1, 0⟩
      ((runTick
        (fun a live => if a == 4 then crontab_append live
          (Task.make 9 (.int 42) (.int 19) .allmatch .allmatch .allmatch
            [])
          else live)
        ⟨0, 12, 1, 1, 0⟩
        [Event.make 4 .allmatch .allmatch .allmatch .allmatch .allmatch
          []]).1)).2 := by
  constructor
  · exact (C9_tick_snapshot ⟨0, 12, 1, 1, 0⟩
      [Event.make 4 .allmatch .allmatch .allmatch .allmatch .allmatch []]
      (fun a live => if a == 4 then crontab_append live
        (Task.make 9 (.int 42) (.int 19) .allmatch .allmatch .allmatch [])
        else live)
      (fun _ live => live)).2.2.1 9 (by decide)
  · exact (C9_tick_snapshot ⟨0, 12, 1, 1, 0⟩
      [Event.make 4 .allmatch .allmatch .allmatch .allmatch .allmatch []]
      (fun a live => if a == 4 then crontab_append live
        (Task.make 9 (.int 42) (.int 19) .allmatch .allmatch .allmatch [])
        else live)
      (fun _ live => live)).2.2.2
      (Task.make 9 (.int 42) (.int 19) .allmatch .allmatch .allmatch [])
      (by decide) ⟨42, 19, 1, 1, 0⟩ (by decide)

end Lights
